import Mathlib

/-!
Verification of the shape-morphing animation core of the Christmas-tree scene.

The development shallowly embeds the morphing core:
* the pure point generators `getRandomSpherePoint`, `getTreeSpiralPoint` and
  `normalize` from the math utility module;
* the per-frame blending pipelines of the `Ornaments`, `MagicSpiral` and
  `StarTop` subsystems;
* the rotation-burst timer logic shared by `Ornaments`, `StarTop` and the
  experience's orbit controls;
* the camera fly-in update of the `Experience` component;
* the exponential smoothing step used for the progress scalar.

JavaScript numbers are modelled exactly: values whose computations stay inside
field arithmetic are embedded over `ℚ` (with trigonometric functions passed as
abstract function parameters, since those claims never use trigonometric
identities), and the analytic parts (square roots, cube roots, real
trigonometry, the exponential smoothing) are embedded over `ℝ`.  A JavaScript
`Math.random()` stream is modelled as a function `ℕ → ℚ` (or `ℕ → ℝ`) giving
the successive draws, each in `[0, 1)`.
-/

namespace ChristmasTree

/-- Global mode enumeration, from `src/types.ts` (`enum TreeState`). -/
inductive TreeState where
  | SCATTERED
  | TREE_SHAPE
deriving DecidableEq, Repr

/-- Exact rational 3-vector, modelling a `THREE.Vector3` whose computations
stay inside field arithmetic. -/
structure Vec3 where
  x : ℚ
  y : ℚ
  z : ℚ
deriving DecidableEq, Repr

/-- Componentwise addition of vectors (`THREE.Vector3.add`). -/
def Vec3.add (a b : Vec3) : Vec3 :=
  ⟨a.x + b.x, a.y + b.y, a.z + b.z⟩

/-- The `THREE.Vector3.lerpVectors(v1, v2, alpha)` operation:
componentwise `v1 + (v2 - v1) * alpha`. -/
def lerpVectors (v1 v2 : Vec3) (alpha : ℚ) : Vec3 :=
  ⟨v1.x + (v2.x - v1.x) * alpha,
   v1.y + (v2.y - v1.y) * alpha,
   v1.z + (v2.z - v1.z) * alpha⟩

/-- The blend formula the specification prescribes for every subsystem:
`scatterPos + (formationPos - scatterPos) * progress`, componentwise. -/
def lerpBlend (scatterPos formationPos : Vec3) (progress : ℚ) : Vec3 :=
  ⟨scatterPos.x + (formationPos.x - scatterPos.x) * progress,
   scatterPos.y + (formationPos.y - scatterPos.y) * progress,
   scatterPos.z + (formationPos.z - scatterPos.z) * progress⟩

/-- The `Math.PI` double constant, as the fixed rational number the source
threads through its angle computations.  The claims under verification never
use any arithmetic property of this constant beyond it being one fixed
number, so its exact value is irrelevant; we use the decimal printed form of
the IEEE-754 constant. -/
def jsPI : ℚ := 3.141592653589793

/-- Result of a JavaScript floating-point operation that may leave the finite
range: either a finite number, a signed infinity, or NaN. -/
inductive JSVal where
  | num (q : ℚ)
  | posInf
  | negInf
  | nan
deriving DecidableEq, Repr

/-- JavaScript division on finite operands: `a / 0` is `NaN` when `a = 0` and
a signed infinity otherwise; it never throws. -/
def jsDiv (a b : ℚ) : JSVal :=
  if b = 0 then
    if a = 0 then JSVal.nan
    else if 0 < a then JSVal.posInf
    else JSVal.negInf
  else JSVal.num (a / b)

/-- The `normalize` helper from the math utility module:
`(val - min) / (max - min)`, with JavaScript division semantics.  The source
body is a single division with no guard and no throw. -/
def normalize (val mx mn : ℚ) : JSVal :=
  jsDiv (val - mn) (mx - mn)

/-- The `getTreeSpiralPoint` generator from the math utility module.  The
trigonometric functions of the host's `Math` object are passed in as the
abstract parameters `cosF` and `sinF`, and `rand` is the stream of
`Math.random()` draws consumed by the three jitter terms, in source order. -/
def getTreeSpiralPoint (cosF sinF : ℚ → ℚ) (rand : ℕ → ℚ)
    (t maxRadius height spirals jitter : ℚ) : Vec3 :=
  let y := (t - 0.5) * height
  let currentRadius := maxRadius * (1 - t)
  let angle := t * jsPI * 2 * spirals
  let x := cosF angle * currentRadius
  let z := sinF angle * currentRadius
  let randX := (rand 0 - 0.5) * jitter
  let randY := (rand 1 - 0.5) * jitter
  let randZ := (rand 2 - 0.5) * jitter
  ⟨x + randX, y + randY, z + randZ⟩

/-- Ideal (jitter-free) helix point of the formation curve, in the form the
specification states it: vertical coordinate `(t - 0.5) * height`, radius
`maxRadius * (1 - t)`, angular coordinate `2π * spirals * t`. -/
def idealSpiralPoint (cosF sinF : ℚ → ℚ) (t maxRadius height spirals : ℚ) : Vec3 :=
  ⟨maxRadius * (1 - t) * cosF (2 * jsPI * spirals * t),
   (t - 0.5) * height,
   maxRadius * (1 - t) * sinF (2 * jsPI * spirals * t)⟩

/-- Per-frame position of one ornament instance, from the `useFrame` body of
`Ornaments`: `lerpVectors(scatterPos, treePos, p)` followed by the additive
float offsets `currentPos.y += floatY`, `currentPos.x += floatX`. -/
def ornamentsPosition (sinF cosF : ℚ → ℚ) (scatterPos treePos : Vec3)
    (p time phase : ℚ) : Vec3 :=
  let currentPos := lerpVectors scatterPos treePos p
  let floatAmp := 0.2 * (1 - p) + 0.05 * p
  let floatY := sinF (time * 0.5 + phase) * floatAmp
  let floatX := cosF (time * 0.3 + phase) * (floatAmp * 0.5)
  ⟨currentPos.x + floatX, currentPos.y + floatY, currentPos.z⟩

/-- The oscillatory perturbation the `Ornaments` frame adds on top of the
blended base position (the `floatX` / `floatY` offsets). -/
def ornamentsPerturb (sinF cosF : ℚ → ℚ) (p time phase : ℚ) : Vec3 :=
  let floatAmp := 0.2 * (1 - p) + 0.05 * p
  ⟨cosF (time * 0.3 + phase) * (floatAmp * 0.5),
   sinF (time * 0.5 + phase) * floatAmp,
   0⟩

/-- Per-frame position of particle `i` of `MagicSpiral`, from its `useFrame`
body: componentwise `s + (t - s) * p` with the sine `wave` added on `y`. -/
def magicSpiralPosition (sinF : ℚ → ℚ) (scatterP treeP : Vec3)
    (p time : ℚ) (i : ℕ) : Vec3 :=
  let wave := sinF (time * 1.0 + (i : ℚ) * 0.2) * 0.1 * p
  ⟨scatterP.x + (treeP.x - scatterP.x) * p,
   scatterP.y + (treeP.y - scatterP.y) * p + wave,
   scatterP.z + (treeP.z - scatterP.z) * p⟩

/-- The oscillatory perturbation `MagicSpiral` adds (the `wave` term, on the
vertical axis only). -/
def magicSpiralPerturb (sinF : ℚ → ℚ) (p time : ℚ) (i : ℕ) : Vec3 :=
  ⟨0, sinF (time * 1.0 + (i : ℚ) * 0.2) * 0.1 * p, 0⟩

/-- Per-frame position of the star group, from the `useFrame` body of
`StarTop`: `lerpVectors(scatterPos, treePos, p)` with the hovering offset
added on `y`. -/
def starTopPosition (sinF : ℚ → ℚ) (scatterPos treePos : Vec3)
    (p time : ℚ) : Vec3 :=
  let currentPos := lerpVectors scatterPos treePos p
  ⟨currentPos.x, currentPos.y + sinF (time * 2) * 0.1, currentPos.z⟩

/-- The hovering perturbation `StarTop` adds (vertical axis only). -/
def starTopPerturb (sinF : ℚ → ℚ) (time : ℚ) : Vec3 :=
  ⟨0, sinF (time * 2) * 0.1, 0⟩

/-- State of one rotation-burst scheduler: the current motion multiplier and
the (at most one) pending reversion time.  The `setTimeout` handle of the
source is modelled, as usual for a shallow embedding, by the absolute time at
which the pending callback fires; `none` means no timer is pending.  Times
are in seconds (`setTimeout(..., 3000)` fires 3 seconds after arming). -/
structure BurstState where
  mult : ℚ
  expiry : Option ℚ
deriving DecidableEq, Repr

/-- Duration of a rotation burst: the source arms its reversion with
`setTimeout(..., 3000)`, i.e. 3 seconds. -/
def burstDuration : ℚ := 3

/-- Effect body run when the global mode changes, from the burst `useEffect`
of `Ornaments` / `StarTop` (and, with different numeric values, the orbit
controls): the cleanup of the previous run has already cleared any pending
timer (hence the previous state `s` is discarded wholesale); on `SCATTERED`
the multiplier becomes `2` and a fresh reversion timer is armed `3` seconds
from now; otherwise the multiplier is reset to `1` with no timer. -/
def burstOnMode (_s : BurstState) (mode : TreeState) (now : ℚ) : BurstState :=
  match mode with
  | TreeState.SCATTERED => ⟨2, some (now + burstDuration)⟩
  | TreeState.TREE_SHAPE => ⟨1, none⟩

/-- Passage of time: the pending `setTimeout` callback fires once the current
time reaches its expiry, setting the multiplier back to `1`. -/
def burstTick (s : BurstState) (now : ℚ) : BurstState :=
  match s.expiry with
  | none => s
  | some e => if e ≤ now then ⟨1, none⟩ else s

/-- Exact real 3-vector, for the parts of the pipeline whose computations
involve square roots, cube roots or genuine trigonometry. -/
structure Vec3R where
  x : ℝ
  y : ℝ
  z : ℝ

/-- Scalar multiple of a real vector (`THREE.Vector3.multiplyScalar`). -/
def smulV (c : ℝ) (v : Vec3R) : Vec3R :=
  ⟨c * v.x, c * v.y, c * v.z⟩

/-- Euclidean length of a real vector (`THREE.Vector3.length()`:
`sqrt(x*x + y*y + z*z)`). -/
noncomputable def lengthR (v : Vec3R) : ℝ :=
  Real.sqrt (v.x * v.x + v.y * v.y + v.z * v.z)

/-- The `THREE.Vector3.setLength(l)` operation: `normalize()` (which divides
by `length() || 1`, so a zero vector stays zero) followed by
`multiplyScalar(l)`. -/
noncomputable def setLength (v : Vec3R) (l : ℝ) : Vec3R :=
  smulV (l / (if lengthR v = 0 then 1 else lengthR v)) v

/-- The `Math.cbrt` cube root; every input fed to it by the source lies in
`[0, 1)`, where it agrees with the real power `u ^ (1/3)`. -/
noncomputable def jsCbrt (u : ℝ) : ℝ := u ^ ((1 : ℝ) / 3)

/-- The `getRandomSpherePoint` generator from the math utility module, over
`ℝ` with the host's genuine trigonometry; `rand` is the stream of
`Math.random()` draws in source order (`u`, `v`, then the radial draw). -/
noncomputable def getRandomSpherePoint (rand : ℕ → ℝ) (radius : ℝ) : Vec3R :=
  let u := rand 0
  let v := rand 1
  let theta := 2 * Real.pi * u
  let phi := Real.arccos (2 * v - 1)
  let r := jsCbrt (rand 2) * radius
  let sinPhi := Real.sin phi
  let x := r * sinPhi * Real.cos theta
  let y := r * sinPhi * Real.sin theta
  let z := r * Real.cos phi
  ⟨x, y, z⟩

/-- The per-frame camera fly-in update from the `useFrame` body of
`Experience`: clamp the frame delta to `0.1`, pick the mode's target
distance (`33` formed, `5` scattered), and when the distance error exceeds
`0.1` rescale the position vector to the nudged length, provided the new
length stays above `0.1`.  (The source's `isNaN` guard has no counterpart
over `ℝ`, where no NaN exists.) -/
noncomputable def cameraUpdate (isTree : Bool) (pos : Vec3R) (delta : ℝ) : Vec3R :=
  let safeDelta := min delta 0.1
  let targetDist : ℝ := if isTree then 33 else 5
  let currentLen := lengthR pos
  let diff := targetDist - currentLen
  let move := diff * safeDelta * 2.5
  if 0.1 < |diff| then
    let newLen := currentLen + move
    if 0.1 < newLen then setLength pos newLen else pos
  else pos

/-- Modelled from the spec: the smoothing step of the `damp` routine that
every subsystem imports from the external `maath/easing` package, which is
not among this repository's sources.  The specification defines the
transition controller's step as
`progress += (target - progress) * (1 - e^(-rate*dt))`. -/
noncomputable def dampAdvance (target rate progress dt : ℝ) : ℝ :=
  progress + (target - progress) * (1 - Real.exp (-(rate * dt)))

/-- One per-frame progress update of the damping-based subsystems
(`Foliage`, `Ornaments`, `MagicSpiral`, `StarTop` all run the same line):
`damp(progress, 'current', isTree ? 1 : 0, isTree ? 1.0 : 2.5, delta)`,
with the raw frame delta. -/
noncomputable def progressAdvance (isTree : Bool) (progress delta : ℝ) : ℝ :=
  dampAdvance (if isTree then 1 else 0) (if isTree then 1 else 2.5) progress delta

/-- Progress after `n` frames whose deltas are `dts 0, dts 1, ...`, starting
from `p0`, with the global mode held fixed. -/
noncomputable def progressSeq (isTree : Bool) (p0 : ℝ) (dts : ℕ → ℝ) : ℕ → ℝ
  | 0 => p0
  | n + 1 => progressAdvance isTree (progressSeq isTree p0 dts n) (dts n)

/-! ## Theorems -/

/-- Bound on one jitter term of `getTreeSpiralPoint`: a `Math.random()` draw
in `[0, 1)` shifted by `0.5` and scaled by a nonnegative `jitter` has
absolute value at most `jitter / 2`. -/
theorem jitterTerm_bound (r jitter : ℚ) (hj : 0 ≤ jitter)
    (h0 : 0 ≤ r) (h1 : r < 1) : |(r - 0.5) * jitter| ≤ jitter / 2 := by
  rw [abs_mul, abs_of_nonneg hj]
  have h : |r - 0.5| ≤ 0.5 := by
    rw [abs_le]
    constructor <;> · norm_num; linarith
  have h2 := mul_le_mul_of_nonneg_right h hj
  norm_num at h2 ⊢
  linarith

/-- C2 counterexample: `normalize(5, 10, 10)` silently evaluates to the
JavaScript value `-Infinity`; the function body is a bare division and has
no error path, so no domain error is raised when `max = min`. -/
theorem normalize_equal_bounds_silent : normalize 5 10 10 = JSVal.negInf := by
  norm_num [normalize, jsDiv]

/-- C2 (amended): `normalize(value, max, min)` returns the finite number
`(value - min) / (max - min)` whenever `max ≠ min` (so `normalize 5 10 0` is
`0.5` and `normalize 0 10 0` is `0`), and when `max = min` it silently
returns `NaN` (if `value = min`) or a signed infinity, following JavaScript
division semantics, rather than failing with a domain error. -/
theorem normalize_spec (val mx mn : ℚ) (h : mx ≠ mn) :
    normalize val mx mn = JSVal.num ((val - mn) / (mx - mn)) ∧
    normalize 5 10 0 = JSVal.num 0.5 ∧
    normalize 0 10 0 = JSVal.num 0 ∧
    normalize val mn mn =
      (if val = mn then JSVal.nan
       else if mn < val then JSVal.posInf else JSVal.negInf) := by
  refine ⟨?_, by norm_num [normalize, jsDiv], by norm_num [normalize, jsDiv], ?_⟩
  · simp [normalize, jsDiv, sub_ne_zero_of_ne h]
  · simp [normalize, jsDiv, sub_eq_zero, sub_pos]

/-- C2 witness: the amended statement instantiated at `value = 5`,
`max = 10`, `min = 0`. -/
theorem normalize_spec_witness :
    (10 : ℚ) ≠ 0 ∧
    (normalize 5 10 0 = JSVal.num ((5 - 0) / (10 - 0)) ∧
     normalize 5 10 0 = JSVal.num 0.5 ∧
     normalize 0 10 0 = JSVal.num 0 ∧
     normalize 5 0 0 =
       (if (5 : ℚ) = 0 then JSVal.nan
        else if (0 : ℚ) < 5 then JSVal.posInf else JSVal.negInf)) :=
  ⟨by norm_num, normalize_spec 5 10 0 (by norm_num)⟩

/-- C3: with zero jitter, `getTreeSpiralPoint` returns exactly the ideal
helix point — vertical coordinate `(t - 0.5) * height`, horizontal radius
`maxRadius * (1 - t)`, angular coordinate `2π * spirals * t` — for every
`t ∈ [0, 1]` and regardless of the random draws. -/
theorem getTreeSpiralPoint_zero_jitter (cosF sinF : ℚ → ℚ) (rand : ℕ → ℚ)
    (t maxRadius height spirals : ℚ) (h0 : 0 ≤ t) (h1 : t ≤ 1) :
    getTreeSpiralPoint cosF sinF rand t maxRadius height spirals 0 =
      idealSpiralPoint cosF sinF t maxRadius height spirals := by
  have hang : t * jsPI * 2 * spirals = 2 * jsPI * spirals * t := by ring
  simp only [getTreeSpiralPoint, idealSpiralPoint, Vec3.mk.injEq]
  rw [hang]
  refine ⟨by ring, by ring, by ring⟩

/-- C3 witness: the zero-jitter theorem instantiated at `t = 1/2` with the
foliage parameters and concrete trigonometric and random sources. -/
theorem getTreeSpiralPoint_zero_jitter_witness :
    (0 : ℚ) ≤ 1/2 ∧ (1/2 : ℚ) ≤ 1 ∧
    getTreeSpiralPoint (fun _ => 1) (fun _ => 0) (fun _ => 0)
        (1/2) 6 14 15 0 =
      idealSpiralPoint (fun _ => 1) (fun _ => 0) (1/2) 6 14 15 :=
  ⟨by norm_num, by norm_num,
   getTreeSpiralPoint_zero_jitter (fun _ => 1) (fun _ => 0) (fun _ => 0)
     (1/2) 6 14 15 (by norm_num) (by norm_num)⟩

/-- C10: each coordinate of `getTreeSpiralPoint` differs from the
corresponding coordinate of the ideal helix point by at most `jitter / 2`
in absolute value, for every nonnegative jitter and every random stream
with draws in `[0, 1)`. -/
theorem getTreeSpiralPoint_jitter_bound (cosF sinF : ℚ → ℚ) (rand : ℕ → ℚ)
    (t maxRadius height spirals jitter : ℚ) (hj : 0 ≤ jitter)
    (hr : ∀ i, 0 ≤ rand i ∧ rand i < 1) :
    |(getTreeSpiralPoint cosF sinF rand t maxRadius height spirals jitter).x -
        (idealSpiralPoint cosF sinF t maxRadius height spirals).x| ≤ jitter / 2 ∧
    |(getTreeSpiralPoint cosF sinF rand t maxRadius height spirals jitter).y -
        (idealSpiralPoint cosF sinF t maxRadius height spirals).y| ≤ jitter / 2 ∧
    |(getTreeSpiralPoint cosF sinF rand t maxRadius height spirals jitter).z -
        (idealSpiralPoint cosF sinF t maxRadius height spirals).z| ≤ jitter / 2 := by
  have hang : t * jsPI * 2 * spirals = 2 * jsPI * spirals * t := by ring
  refine ⟨?_, ?_, ?_⟩
  · have hx : (getTreeSpiralPoint cosF sinF rand t maxRadius height spirals jitter).x -
        (idealSpiralPoint cosF sinF t maxRadius height spirals).x =
        (rand 0 - 0.5) * jitter := by
      simp only [getTreeSpiralPoint, idealSpiralPoint]
      rw [hang]; ring
    rw [hx]
    exact jitterTerm_bound _ _ hj (hr 0).1 (hr 0).2
  · have hy : (getTreeSpiralPoint cosF sinF rand t maxRadius height spirals jitter).y -
        (idealSpiralPoint cosF sinF t maxRadius height spirals).y =
        (rand 1 - 0.5) * jitter := by
      simp only [getTreeSpiralPoint, idealSpiralPoint]
      ring
    rw [hy]
    exact jitterTerm_bound _ _ hj (hr 1).1 (hr 1).2
  · have hz : (getTreeSpiralPoint cosF sinF rand t maxRadius height spirals jitter).z -
        (idealSpiralPoint cosF sinF t maxRadius height spirals).z =
        (rand 2 - 0.5) * jitter := by
      simp only [getTreeSpiralPoint, idealSpiralPoint]
      rw [hang]; ring
    rw [hz]
    exact jitterTerm_bound _ _ hj (hr 2).1 (hr 2).2

/-- C10 witness: the jitter bound instantiated at the ornament parameters
(`jitter = 1.2`) with a concrete random stream. -/
theorem getTreeSpiralPoint_jitter_bound_witness :
    (0 : ℚ) ≤ 1.2 ∧ (∀ i : ℕ, 0 ≤ (fun _ : ℕ => (1/4 : ℚ)) i ∧
      (fun _ : ℕ => (1/4 : ℚ)) i < 1) ∧
    (|(getTreeSpiralPoint (fun _ => 1) (fun _ => 0) (fun _ => 1/4)
          (1/3) 5.5 13 15 1.2).x -
        (idealSpiralPoint (fun _ => 1) (fun _ => 0) (1/3) 5.5 13 15).x| ≤ 1.2 / 2 ∧
     |(getTreeSpiralPoint (fun _ => 1) (fun _ => 0) (fun _ => 1/4)
          (1/3) 5.5 13 15 1.2).y -
        (idealSpiralPoint (fun _ => 1) (fun _ => 0) (1/3) 5.5 13 15).y| ≤ 1.2 / 2 ∧
     |(getTreeSpiralPoint (fun _ => 1) (fun _ => 0) (fun _ => 1/4)
          (1/3) 5.5 13 15 1.2).z -
        (idealSpiralPoint (fun _ => 1) (fun _ => 0) (1/3) 5.5 13 15).z| ≤ 1.2 / 2) :=
  ⟨by norm_num, fun i => ⟨by norm_num, by norm_num⟩,
   getTreeSpiralPoint_jitter_bound (fun _ => 1) (fun _ => 0) (fun _ => 1/4)
     (1/3) 5.5 13 15 1.2 (by norm_num) (fun i => ⟨by norm_num, by norm_num⟩)⟩

/-- C9: each subsystem's per-frame output position is exactly the linear
blend `scatterPos + (formationPos - scatterPos) * progress` plus that
subsystem's own oscillatory perturbation, and the blend itself returns
exactly `scatterPos` at progress `0` and exactly `formationPos` at
progress `1`. -/
theorem subsystem_blend_structure (sinF cosF : ℚ → ℚ) (s f : Vec3)
    (p time phase : ℚ) (i : ℕ) :
    ornamentsPosition sinF cosF s f p time phase =
      (lerpBlend s f p).add (ornamentsPerturb sinF cosF p time phase) ∧
    magicSpiralPosition sinF s f p time i =
      (lerpBlend s f p).add (magicSpiralPerturb sinF p time i) ∧
    starTopPosition sinF s f p time =
      (lerpBlend s f p).add (starTopPerturb sinF time) ∧
    lerpBlend s f 0 = s ∧
    lerpBlend s f 1 = f := by
  obtain ⟨sx, sy, sz⟩ := s
  obtain ⟨fx, fy, fz⟩ := f
  refine ⟨?_, ?_, ?_, ?_, ?_⟩ <;>
    · simp only [ornamentsPosition, ornamentsPerturb, magicSpiralPosition,
        magicSpiralPerturb, starTopPosition, starTopPerturb, lerpVectors,
        lerpBlend, Vec3.add, Vec3.mk.injEq]
      refine ⟨by ring, by ring, by ring⟩

/-- C5: the burst scheduler sets the multiplier to `2` the moment the mode
becomes `SCATTERED`; with no re-trigger it stays `2` strictly before, and
reverts to `1` exactly at, the 3-second expiry; in the non-scattered mode
the multiplier is `1` with no timer pending; and re-triggering replaces the
pending timer with one measured from the newest trigger, so the multiplier
is still `2` at any time before the new expiry (even past the old one) and
reverts at the new expiry. -/
theorem burst_machine_spec (s s0 : BurstState) (t0 t1 t : ℚ)
    (h01 : t0 ≤ t1) (h1t : t1 ≤ t) (ht : t < t1 + burstDuration) :
    (burstOnMode s TreeState.SCATTERED t0).mult = 2 ∧
    (∀ u, u < t0 + burstDuration →
      (burstTick (burstOnMode s TreeState.SCATTERED t0) u).mult = 2) ∧
    burstTick (burstOnMode s TreeState.SCATTERED t0) (t0 + burstDuration) =
      ⟨1, none⟩ ∧
    burstOnMode s TreeState.TREE_SHAPE t0 = ⟨1, none⟩ ∧
    burstOnMode (burstOnMode s0 TreeState.SCATTERED t0) TreeState.SCATTERED t1 =
      ⟨2, some (t1 + burstDuration)⟩ ∧
    (burstTick (burstOnMode (burstOnMode s0 TreeState.SCATTERED t0)
        TreeState.SCATTERED t1) t).mult = 2 ∧
    burstTick (burstOnMode (burstOnMode s0 TreeState.SCATTERED t0)
        TreeState.SCATTERED t1) (t1 + burstDuration) = ⟨1, none⟩ := by
  refine ⟨rfl, ?_, ?_, rfl, rfl, ?_, ?_⟩
  · intro u hu
    simp only [burstOnMode, burstTick]
    rw [if_neg (not_le.mpr hu)]
  · simp only [burstOnMode, burstTick]
    rw [if_pos le_rfl]
  · simp only [burstOnMode, burstTick]
    rw [if_neg (not_le.mpr ht)]
  · simp only [burstOnMode, burstTick]
    rw [if_pos le_rfl]

/-- C5 witness: the burst machine instantiated with a first trigger at
`t = 0`, a re-trigger at `t = 1.5`, and an observation at `t = 4` (after
the cancelled first expiry, before the restarted one). -/
theorem burst_machine_spec_witness :
    ((0 : ℚ) ≤ 1.5 ∧ (1.5 : ℚ) ≤ 4 ∧ (4 : ℚ) < 1.5 + burstDuration) ∧
    ((burstOnMode ⟨1, none⟩ TreeState.SCATTERED 0).mult = 2 ∧
     (∀ u, u < 0 + burstDuration →
       (burstTick (burstOnMode ⟨1, none⟩ TreeState.SCATTERED 0) u).mult = 2) ∧
     burstTick (burstOnMode ⟨1, none⟩ TreeState.SCATTERED 0)
       (0 + burstDuration) = ⟨1, none⟩ ∧
     burstOnMode ⟨1, none⟩ TreeState.TREE_SHAPE 0 = ⟨1, none⟩ ∧
     burstOnMode (burstOnMode ⟨1, none⟩ TreeState.SCATTERED 0)
       TreeState.SCATTERED 1.5 = ⟨2, some (1.5 + burstDuration)⟩ ∧
     (burstTick (burstOnMode (burstOnMode ⟨1, none⟩ TreeState.SCATTERED 0)
         TreeState.SCATTERED 1.5) 4).mult = 2 ∧
     burstTick (burstOnMode (burstOnMode ⟨1, none⟩ TreeState.SCATTERED 0)
         TreeState.SCATTERED 1.5) (1.5 + burstDuration) = ⟨1, none⟩) :=
  ⟨⟨by norm_num, by norm_num, by norm_num [burstDuration]⟩,
   burst_machine_spec ⟨1, none⟩ ⟨1, none⟩ 0 1.5 4
     (by norm_num) (by norm_num) (by norm_num [burstDuration])⟩

/-- Length of a scalar multiple: `lengthR (c • v) = |c| * lengthR v`. -/
theorem lengthR_smulV (c : ℝ) (v : Vec3R) :
    lengthR (smulV c v) = |c| * lengthR v := by
  simp only [lengthR, smulV]
  rw [show c * v.x * (c * v.x) + c * v.y * (c * v.y) + c * v.z * (c * v.z) =
      (c * c) * (v.x * v.x + v.y * v.y + v.z * v.z) by ring,
    Real.sqrt_mul (mul_self_nonneg c), Real.sqrt_mul_self_eq_abs]

/-- Scaling by `1` is the identity. -/
theorem smulV_one (v : Vec3R) : smulV 1 v = v := by
  obtain ⟨x, y, z⟩ := v
  simp [smulV]

/-- On a vector of nonzero length, `setLength` produces exactly the requested
nonnegative length. -/
theorem lengthR_setLength (v : Vec3R) (l : ℝ) (hv : lengthR v ≠ 0)
    (hl : 0 ≤ l) : lengthR (setLength v l) = l := by
  have hpos : 0 < lengthR v := lt_of_le_of_ne (Real.sqrt_nonneg _) (Ne.symm hv)
  simp only [setLength, if_neg hv, lengthR_smulV]
  rw [abs_of_nonneg (div_nonneg hl hpos.le), div_mul_cancel₀ _ hv]

/-- Norm identity for the spherical-coordinate construction: a point built as
`(r sin φ cos θ, r sin φ sin θ, r cos φ)` with `r ≥ 0` has Euclidean length
exactly `r`. -/
theorem sphere_coords_length (r θ φ : ℝ) (hr : 0 ≤ r) :
    Real.sqrt (r * Real.sin φ * Real.cos θ * (r * Real.sin φ * Real.cos θ) +
        r * Real.sin φ * Real.sin θ * (r * Real.sin φ * Real.sin θ) +
        r * Real.cos φ * (r * Real.cos φ)) = r := by
  have h1 := Real.sin_sq_add_cos_sq θ
  have h2 := Real.sin_sq_add_cos_sq φ
  have key : r * Real.sin φ * Real.cos θ * (r * Real.sin φ * Real.cos θ) +
      r * Real.sin φ * Real.sin θ * (r * Real.sin φ * Real.sin θ) +
      r * Real.cos φ * (r * Real.cos φ) = r * r := by
    linear_combination (r * Real.sin φ) ^ 2 * h1 + r ^ 2 * h2
  rw [key, Real.sqrt_mul_self hr]

/-- C4: for every positive radius and every random stream with draws in
`[0, 1)`, the sphere sampler's output has Euclidean length exactly
`cbrt(u) * radius` — the cube root of the third uniform draw scaled by the
radius, i.e. the volumetric-uniform radial law, not `u * radius` — and in
particular length at most `radius`. -/
theorem getRandomSpherePoint_norm (rand : ℕ → ℝ) (radius : ℝ)
    (hrad : 0 < radius) (hr : ∀ i, 0 ≤ rand i ∧ rand i < 1) :
    lengthR (getRandomSpherePoint rand radius) = jsCbrt (rand 2) * radius ∧
    lengthR (getRandomSpherePoint rand radius) ≤ radius := by
  obtain ⟨hu0, hu1⟩ := hr 2
  have hc0 : 0 ≤ jsCbrt (rand 2) := Real.rpow_nonneg hu0 _
  have hc1 : jsCbrt (rand 2) ≤ 1 := Real.rpow_le_one hu0 hu1.le (by norm_num)
  have hr0 : 0 ≤ jsCbrt (rand 2) * radius := mul_nonneg hc0 hrad.le
  have hmain : lengthR (getRandomSpherePoint rand radius) =
      jsCbrt (rand 2) * radius := by
    simp only [getRandomSpherePoint, lengthR]
    exact sphere_coords_length (jsCbrt (rand 2) * radius)
      (2 * Real.pi * rand 0) (Real.arccos (2 * rand 1 - 1)) hr0
  refine ⟨hmain, ?_⟩
  rw [hmain]
  calc jsCbrt (rand 2) * radius ≤ 1 * radius :=
        mul_le_mul_of_nonneg_right hc1 hrad.le
    _ = radius := one_mul radius

/-- C4 witness: the sampler applied to the constant stream `1/8` at radius
`15` (the foliage scatter radius). -/
theorem getRandomSpherePoint_norm_witness :
    (0 : ℝ) < 15 ∧
    (lengthR (getRandomSpherePoint (fun _ => 1/8) 15) = jsCbrt (1/8) * 15 ∧
     lengthR (getRandomSpherePoint (fun _ => 1/8) 15) ≤ 15) :=
  ⟨by norm_num,
   getRandomSpherePoint_norm (fun _ => 1/8) 15 (by norm_num)
     (fun i => ⟨by norm_num, by norm_num⟩)⟩

/-- C6: under the per-frame camera update, (i) the position changes only
when the distance error exceeds the `0.1` threshold, (ii) the new position
is always a nonnegative scalar multiple of the old one (the viewing
direction is preserved), and (iii) whenever the update fires (error above
threshold and the nudged length above the `0.1` safety floor), the distance
moves by exactly `(D - d) * dt * 2.5`. -/
theorem cameraUpdate_spec (isTree : Bool) (pos : Vec3R) (delta : ℝ)
    (hdt : delta ≤ 0.1) (hpos : 0 < lengthR pos) :
    (cameraUpdate isTree pos delta ≠ pos →
      0.1 < |(if isTree then (33 : ℝ) else 5) - lengthR pos|) ∧
    (∃ c : ℝ, 0 ≤ c ∧ cameraUpdate isTree pos delta = smulV c pos) ∧
    (0.1 < |(if isTree then (33 : ℝ) else 5) - lengthR pos| →
      0.1 < lengthR pos +
        ((if isTree then (33 : ℝ) else 5) - lengthR pos) * delta * 2.5 →
      lengthR (cameraUpdate isTree pos delta) =
        lengthR pos +
          ((if isTree then (33 : ℝ) else 5) - lengthR pos) * delta * 2.5) := by
  have hunfold : cameraUpdate isTree pos delta =
      if 0.1 < |(if isTree then (33 : ℝ) else 5) - lengthR pos| then
        (if 0.1 < lengthR pos +
            ((if isTree then (33 : ℝ) else 5) - lengthR pos) * delta * 2.5 then
          setLength pos (lengthR pos +
            ((if isTree then (33 : ℝ) else 5) - lengthR pos) * delta * 2.5)
        else pos)
      else pos := by
    simp only [cameraUpdate]
    rw [min_eq_left hdt]
  by_cases hdiff : (0.1 : ℝ) < |(if isTree then (33 : ℝ) else 5) - lengthR pos|
  · by_cases hnew : (0.1 : ℝ) < lengthR pos +
        ((if isTree then (33 : ℝ) else 5) - lengthR pos) * delta * 2.5
    · have hupd : cameraUpdate isTree pos delta =
          setLength pos (lengthR pos +
            ((if isTree then (33 : ℝ) else 5) - lengthR pos) * delta * 2.5) := by
        rw [hunfold, if_pos hdiff, if_pos hnew]
      refine ⟨fun _ => hdiff, ?_, fun _ _ => ?_⟩
      · refine ⟨(lengthR pos +
            ((if isTree then (33 : ℝ) else 5) - lengthR pos) * delta * 2.5) /
            lengthR pos, div_nonneg (by linarith) hpos.le, ?_⟩
        rw [hupd]
        simp only [setLength, if_neg hpos.ne']
      · rw [hupd, lengthR_setLength pos _ hpos.ne' (by linarith)]
    · have hupd : cameraUpdate isTree pos delta = pos := by
        rw [hunfold, if_pos hdiff, if_neg hnew]
      exact ⟨fun _ => hdiff, ⟨1, by norm_num, by rw [hupd, smulV_one]⟩,
        fun _ h2 => absurd h2 hnew⟩
  · have hupd : cameraUpdate isTree pos delta = pos := by
      rw [hunfold, if_neg hdiff]
    exact ⟨fun hne => absurd hupd hne, ⟨1, by norm_num, by rw [hupd, smulV_one]⟩,
      fun h1 _ => absurd h1 hdiff⟩

/-- C6 witness: the camera update at a one-sixtieth-second frame from the
position `(3, 4, 0)` (distance `5`) in scattered mode. -/
theorem cameraUpdate_spec_witness :
    ((1 : ℝ)/60 ≤ 0.1) ∧ (0 < lengthR ⟨3, 4, 0⟩) ∧
    ((cameraUpdate false ⟨3, 4, 0⟩ (1/60) ≠ ⟨3, 4, 0⟩ →
       0.1 < |(5 : ℝ) - lengthR ⟨3, 4, 0⟩|) ∧
     (∃ c : ℝ, 0 ≤ c ∧ cameraUpdate false ⟨3, 4, 0⟩ (1/60) = smulV c ⟨3, 4, 0⟩) ∧
     (0.1 < |(5 : ℝ) - lengthR ⟨3, 4, 0⟩| →
       0.1 < lengthR ⟨3, 4, 0⟩ +
         ((5 : ℝ) - lengthR ⟨3, 4, 0⟩) * (1/60) * 2.5 →
       lengthR (cameraUpdate false ⟨3, 4, 0⟩ (1/60)) =
         lengthR ⟨3, 4, 0⟩ + ((5 : ℝ) - lengthR ⟨3, 4, 0⟩) * (1/60) * 2.5)) :=
  ⟨by norm_num,
   by simp only [lengthR]; exact Real.sqrt_pos.mpr (by norm_num),
   cameraUpdate_spec false ⟨3, 4, 0⟩ (1/60) (by norm_num)
     (by simp only [lengthR]; exact Real.sqrt_pos.mpr (by norm_num))⟩

/-- Distance to the target contracts by `e^(-rate*dt)` at every smoothing
step. -/
theorem dampAdvance_sub (target rate p dt : ℝ) :
    target - dampAdvance target rate p dt =
      (target - p) * Real.exp (-(rate * dt)) := by
  simp only [dampAdvance]; ring

/-- Closed form of the assembling sequence at a fixed frame delta:
starting from `0` with target `1` and rate `1`,
`progress_n = 1 - e^(-dt)^n`. -/
theorem progressSeq_assemble_closed (dt : ℝ) (n : ℕ) :
    progressSeq true 0 (fun _ => dt) n = 1 - Real.exp (-dt) ^ n := by
  induction n with
  | zero => simp [progressSeq]
  | succ n ih =>
    have hstep : progressSeq true 0 (fun _ => dt) (n + 1) =
        dampAdvance 1 1 (progressSeq true 0 (fun _ => dt) n) dt := rfl
    rw [hstep, ih]
    simp only [dampAdvance, one_mul]
    ring

/-- Closed form of the dispersing sequence at a fixed frame delta: starting
from `1` with target `0` and rate `2.5`, `progress_n = e^(-2.5*dt)^n`. -/
theorem progressSeq_disperse_closed (dt : ℝ) (n : ℕ) :
    progressSeq false 1 (fun _ => dt) n = Real.exp (-(2.5 * dt)) ^ n := by
  induction n with
  | zero => simp [progressSeq]
  | succ n ih =>
    have hstep : progressSeq false 1 (fun _ => dt) (n + 1) =
        dampAdvance 0 2.5 (progressSeq false 1 (fun _ => dt) n) dt := rfl
    rw [hstep, ih]
    simp only [dampAdvance]
    ring

/-- C1: with any fixed positive frame delta, the progress sequence starting
at `0` with target `1` is strictly increasing, stays below `1`, and
converges to `1`; the sequence starting at `1` with target `0` is strictly
decreasing, stays above `0`, and converges to `0`; and a single smoothing
step at any positive rate always moves progress toward the current target
without overshooting it. -/
theorem transition_progress_spec (dt rate : ℝ) (hdt : 0 < dt)
    (hrate : 0 < rate) :
    (∀ n, progressSeq true 0 (fun _ => dt) n <
      progressSeq true 0 (fun _ => dt) (n + 1)) ∧
    (∀ n, progressSeq true 0 (fun _ => dt) n < 1) ∧
    Filter.Tendsto (progressSeq true 0 (fun _ => dt)) Filter.atTop (nhds 1) ∧
    (∀ n, progressSeq false 1 (fun _ => dt) (n + 1) <
      progressSeq false 1 (fun _ => dt) n) ∧
    (∀ n, 0 < progressSeq false 1 (fun _ => dt) n) ∧
    Filter.Tendsto (progressSeq false 1 (fun _ => dt)) Filter.atTop (nhds 0) ∧
    (∀ target p : ℝ, p ≤ target →
      p ≤ dampAdvance target rate p dt ∧ dampAdvance target rate p dt ≤ target) ∧
    (∀ target p : ℝ, target ≤ p →
      target ≤ dampAdvance target rate p dt ∧ dampAdvance target rate p dt ≤ p) := by
  have hq0 : 0 < Real.exp (-dt) := Real.exp_pos _
  have hq1 : Real.exp (-dt) < 1 := Real.exp_lt_one_iff.mpr (by linarith)
  have hQ0 : 0 < Real.exp (-(2.5 * dt)) := Real.exp_pos _
  have hQ1 : Real.exp (-(2.5 * dt)) < 1 := Real.exp_lt_one_iff.mpr (by nlinarith)
  have hE0 : 0 < Real.exp (-(rate * dt)) := Real.exp_pos _
  have hE1 : Real.exp (-(rate * dt)) < 1 := Real.exp_lt_one_iff.mpr (by nlinarith)
  refine ⟨?_, ?_, ?_, ?_, ?_, ?_, ?_, ?_⟩
  · intro n
    rw [progressSeq_assemble_closed, progressSeq_assemble_closed]
    have := pow_lt_pow_right_of_lt_one₀ hq0 hq1 (by omega : n < n + 1)
    linarith
  · intro n
    rw [progressSeq_assemble_closed]
    have := pow_pos hq0 n
    linarith
  · have hfun : progressSeq true 0 (fun _ => dt) =
        fun n => 1 - Real.exp (-dt) ^ n :=
      funext (progressSeq_assemble_closed dt)
    rw [hfun]
    have h := tendsto_pow_atTop_nhds_zero_of_lt_one hq0.le hq1
    simpa using Filter.Tendsto.const_sub 1 h
  · intro n
    rw [progressSeq_disperse_closed, progressSeq_disperse_closed]
    exact pow_lt_pow_right_of_lt_one₀ hQ0 hQ1 (by omega : n < n + 1)
  · intro n
    rw [progressSeq_disperse_closed]
    exact pow_pos hQ0 n
  · have hfun : progressSeq false 1 (fun _ => dt) =
        fun n => Real.exp (-(2.5 * dt)) ^ n :=
      funext (progressSeq_disperse_closed dt)
    rw [hfun]
    exact tendsto_pow_atTop_nhds_zero_of_lt_one hQ0.le hQ1
  · intro target p hp
    have hdiff := dampAdvance_sub target rate p dt
    constructor
    · have h2 : dampAdvance target rate p dt - p =
          (target - p) * (1 - Real.exp (-(rate * dt))) := by
        simp only [dampAdvance]; ring
      nlinarith [mul_nonneg (sub_nonneg.mpr hp) (by linarith : (0:ℝ) ≤ 1 - Real.exp (-(rate * dt)))]
    · nlinarith [mul_nonneg (sub_nonneg.mpr hp) hE0.le]
  · intro target p hp
    have hdiff := dampAdvance_sub target rate p dt
    constructor
    · nlinarith [mul_nonneg (sub_nonneg.mpr hp) hE0.le]
    · have h2 : p - dampAdvance target rate p dt =
          (p - target) * (1 - Real.exp (-(rate * dt))) := by
        simp only [dampAdvance]; ring
      nlinarith [mul_nonneg (sub_nonneg.mpr hp) (by linarith : (0:ℝ) ≤ 1 - Real.exp (-(rate * dt)))]

/-- C1 witness: the transition-controller theorem instantiated at the
60-fps frame delta and the assembling rate `1`. -/
theorem transition_progress_spec_witness :
    (0 : ℝ) < 1/60 ∧ (0 : ℝ) < 1 ∧
    ((∀ n, progressSeq true 0 (fun _ => (1/60 : ℝ)) n <
       progressSeq true 0 (fun _ => (1/60 : ℝ)) (n + 1)) ∧
     (∀ n, progressSeq true 0 (fun _ => (1/60 : ℝ)) n < 1) ∧
     Filter.Tendsto (progressSeq true 0 (fun _ => (1/60 : ℝ)))
       Filter.atTop (nhds 1) ∧
     (∀ n, progressSeq false 1 (fun _ => (1/60 : ℝ)) (n + 1) <
       progressSeq false 1 (fun _ => (1/60 : ℝ)) n) ∧
     (∀ n, 0 < progressSeq false 1 (fun _ => (1/60 : ℝ)) n) ∧
     Filter.Tendsto (progressSeq false 1 (fun _ => (1/60 : ℝ)))
       Filter.atTop (nhds 0) ∧
     (∀ target p : ℝ, p ≤ target →
       p ≤ dampAdvance target 1 p (1/60) ∧
       dampAdvance target 1 p (1/60) ≤ target) ∧
     (∀ target p : ℝ, target ≤ p →
       target ≤ dampAdvance target 1 p (1/60) ∧
       dampAdvance target 1 p (1/60) ≤ p)) :=
  ⟨by norm_num, by norm_num,
   transition_progress_spec (1/60) 1 (by norm_num) (by norm_num)⟩

/-- C7 counterexample: the damping-based subsystems pass the raw frame
delta to the smoothing step — no cap exists through which the foliage
update factors, i.e. the update is genuinely sensitive to arbitrarily large
deltas, unlike the camera update which clamps at `0.1`. -/
theorem unclamped_delta_foliage :
    ¬ ∃ cap : ℝ, ∀ delta : ℝ,
      progressAdvance true 0 delta = progressAdvance true 0 (min delta cap) := by
  rintro ⟨cap, h⟩
  have h1 := h (cap + 1)
  rw [min_eq_right (by linarith)] at h1
  have e1 : ∀ d : ℝ, progressAdvance true 0 d = 1 - Real.exp (-(1 * d)) := by
    intro d
    simp only [progressAdvance, dampAdvance, if_true]
    ring
  rw [e1, e1] at h1
  have h2 : Real.exp (-(1 * (cap + 1))) = Real.exp (-(1 * cap)) := by linarith
  rw [Real.exp_eq_exp] at h2
  linarith

/-- C7 (amended): only the camera update clamps the frame delta (at `0.1`)
before use; the damping-based subsystems consume the raw delta, yet their
smoothing step is nevertheless stable for arbitrarily large deltas —
progress stays within `[0, 1]` and moves toward the current target. -/
theorem clamp_and_stability_spec (isTree : Bool) (pos : Vec3R) (p delta : ℝ)
    (hdt : 0 ≤ delta) (hp0 : 0 ≤ p) (hp1 : p ≤ 1) :
    (0.1 ≤ delta → cameraUpdate isTree pos delta = cameraUpdate isTree pos 0.1) ∧
    (0 ≤ progressAdvance isTree p delta ∧ progressAdvance isTree p delta ≤ 1) ∧
    (isTree = true → p ≤ progressAdvance isTree p delta) ∧
    (isTree = false → progressAdvance isTree p delta ≤ p) := by
  refine ⟨?_, ?_, ?_, ?_⟩
  · intro hge
    simp only [cameraUpdate]
    rw [min_eq_right hge, min_self]
  · cases isTree with
    | false =>
      have hE0 : 0 < Real.exp (-(2.5 * delta)) := Real.exp_pos _
      have hE1 : Real.exp (-(2.5 * delta)) ≤ 1 :=
        Real.exp_le_one_iff.mpr (by nlinarith)
      have heq : progressAdvance false p delta =
          p * Real.exp (-(2.5 * delta)) := by
        rw [show progressAdvance false p delta =
            dampAdvance 0 2.5 p delta from rfl]
        simp only [dampAdvance]
        ring
      rw [heq]
      exact ⟨mul_nonneg hp0 hE0.le,
        le_trans (mul_le_of_le_one_right hp0 hE1) hp1⟩
    | true =>
      have hE0 : 0 < Real.exp (-(1 * delta)) := Real.exp_pos _
      have hE1 : Real.exp (-(1 * delta)) ≤ 1 :=
        Real.exp_le_one_iff.mpr (by nlinarith)
      constructor
      · simp only [progressAdvance, dampAdvance, if_true]
        nlinarith [mul_nonneg (sub_nonneg.mpr hp1)
          (by linarith : (0:ℝ) ≤ 1 - Real.exp (-(1 * delta)))]
      · simp only [progressAdvance, dampAdvance, if_true]
        nlinarith [mul_nonneg (sub_nonneg.mpr hp1) hE0.le]
  · intro hT
    subst hT
    have hE1 : Real.exp (-(1 * delta)) ≤ 1 :=
      Real.exp_le_one_iff.mpr (by nlinarith)
    simp only [progressAdvance, dampAdvance, if_true]
    nlinarith [mul_nonneg (sub_nonneg.mpr hp1)
      (by linarith : (0:ℝ) ≤ 1 - Real.exp (-(1 * delta)))]
  · intro hF
    subst hF
    have hE1 : Real.exp (-(2.5 * delta)) ≤ 1 :=
      Real.exp_le_one_iff.mpr (by nlinarith)
    have hE0 : 0 < Real.exp (-(2.5 * delta)) := Real.exp_pos _
    have heq : progressAdvance false p delta =
        p * Real.exp (-(2.5 * delta)) := by
      rw [show progressAdvance false p delta =
          dampAdvance 0 2.5 p delta from rfl]
      simp only [dampAdvance]
      ring
    rw [heq]
    nlinarith [mul_le_of_le_one_right hp0 hE1]

/-- C7 witness: the amended claim instantiated at a `0.2`-second stalled
frame (above the camera's clamp) from progress `1/2` in formation mode. -/
theorem clamp_and_stability_spec_witness :
    (0 : ℝ) ≤ 0.2 ∧ (0 : ℝ) ≤ 1/2 ∧ (1/2 : ℝ) ≤ 1 ∧
    ((0.1 ≤ (0.2 : ℝ) →
       cameraUpdate true ⟨3, 4, 0⟩ 0.2 = cameraUpdate true ⟨3, 4, 0⟩ 0.1) ∧
     (0 ≤ progressAdvance true (1/2) 0.2 ∧ progressAdvance true (1/2) 0.2 ≤ 1) ∧
     (true = true → 1/2 ≤ progressAdvance true (1/2) 0.2) ∧
     (true = false → progressAdvance true (1/2) 0.2 ≤ 1/2)) :=
  ⟨by norm_num, by norm_num, by norm_num,
   clamp_and_stability_spec true ⟨3, 4, 0⟩ (1/2) 0.2
     (by norm_num) (by norm_num) (by norm_num)⟩

/-- Closed form of the dispersing sequence with arbitrary frame deltas:
distance to the target `0` contracts by `e^(-2.5*dt)` each frame. -/
theorem progressSeq_disperse_closed_var (p0 : ℝ) (dts : ℕ → ℝ) (n : ℕ) :
    progressSeq false p0 dts n =
      p0 * Real.exp (-(2.5 * ∑ i in Finset.range n, dts i)) := by
  induction n with
  | zero => simp [progressSeq]
  | succ n ih =>
    have hstep : progressSeq false p0 dts (n + 1) =
        dampAdvance 0 2.5 (progressSeq false p0 dts n) (dts n) := rfl
    rw [hstep, ih]
    simp only [dampAdvance, Finset.sum_range_succ]
    rw [show -(2.5 * (∑ i in Finset.range n, dts i + dts n)) =
        -(2.5 * ∑ i in Finset.range n, dts i) + -(2.5 * dts n) by ring,
      Real.exp_add]
    ring

/-- Closed form of the assembling sequence with arbitrary frame deltas:
distance to the target `1` contracts by `e^(-dt)` each frame. -/
theorem progressSeq_assemble_closed_var (p0 : ℝ) (dts : ℕ → ℝ) (n : ℕ) :
    1 - progressSeq true p0 dts n =
      (1 - p0) * Real.exp (-(∑ i in Finset.range n, dts i)) := by
  induction n with
  | zero => simp [progressSeq]
  | succ n ih =>
    have hstep : progressSeq true p0 dts (n + 1) =
        dampAdvance 1 1 (progressSeq true p0 dts n) (dts n) := rfl
    rw [hstep, dampAdvance_sub, ih, one_mul, Finset.sum_range_succ]
    rw [show -(∑ i in Finset.range n, dts i + dts n) =
        -(∑ i in Finset.range n, dts i) + -(dts n) by ring,
      Real.exp_add]
    ring

/-- C8: starting at equal distance `d` from the respective targets and fed
the same sequence of positive frame deltas, the dispersing controller
(target `0`, rate `2.5`) is strictly closer to its target after every step
than the assembling controller (target `1`, rate `1`) is to its own. -/
theorem dispersal_faster_than_assembly (d : ℝ) (dts : ℕ → ℝ)
    (hd : 0 < d) (hdts : ∀ i, 0 < dts i) :
    ∀ n : ℕ, |progressSeq false d dts (n + 1) - 0| <
      |1 - progressSeq true (1 - d) dts (n + 1)| := by
  intro n
  have hS : 0 < ∑ i in Finset.range (n + 1), dts i :=
    Finset.sum_pos (fun i _ => hdts i)
      ⟨0, Finset.mem_range.mpr (Nat.succ_pos n)⟩
  rw [sub_zero, progressSeq_disperse_closed_var,
    progressSeq_assemble_closed_var,
    show (1 : ℝ) - (1 - d) = d by ring,
    abs_of_pos (mul_pos hd (Real.exp_pos _)),
    abs_of_pos (mul_pos hd (Real.exp_pos _))]
  have hlt : Real.exp (-(2.5 * ∑ i in Finset.range (n + 1), dts i)) <
      Real.exp (-(∑ i in Finset.range (n + 1), dts i)) :=
    Real.exp_lt_exp.mpr (by nlinarith)
  exact mul_lt_mul_of_pos_left hlt hd

/-- C8 witness: equal starting distance `1/2` and constant 60-fps deltas,
after one step. -/
theorem dispersal_faster_than_assembly_witness :
    |progressSeq false (1/2) (fun _ => (1/60 : ℝ)) 1 - 0| <
      |1 - progressSeq true (1 - 1/2) (fun _ => (1/60 : ℝ)) 1| :=
  dispersal_faster_than_assembly (1/2) (fun _ => (1/60 : ℝ))
    (by norm_num) (fun i => by norm_num) 0

end ChristmasTree
